import Mathlib

/-!
Verification development for the identity-locked tracking and anomaly-scoring
pipeline: shallow embedding of the sequence buffer, identity lock controller,
feature engineer, anomaly classifier and scorer adapter, with theorems about
the behaviours the design documentation describes.
-/

set_option maxHeartbeats 1000000

/-! ## Sequence buffer (core/sequence_buffer.py)

A sliding-window buffer with ring semantics (a deque with a maximum length of
window_size) and a stride counter that throttles how often a full window is
declared ready. -/

structure SequenceBuffer (α : Type) where
  windowSize : ℕ
  numFeatures : ℕ
  stride : ℕ
  buffer : List α
  sinceLast : ℕ
deriving DecidableEq

/-- Fresh buffer, mirroring SequenceBuffer.__init__. -/
def SequenceBuffer.new (α : Type) (windowSize numFeatures stride : ℕ) :
    SequenceBuffer α :=
  ⟨windowSize, numFeatures, stride, [], 0⟩

/-- SequenceBuffer.add: append one feature vector (deque eviction keeps the
last windowSize entries), bump the stride counter, and report readiness when
the buffer is full and at least stride additions happened since the last
ready window. Returns the new buffer state and the ready flag. -/
def SequenceBuffer.add (b : SequenceBuffer α) (x : α) : SequenceBuffer α × Bool :=
  let appended := b.buffer ++ [x]
  let buf := appended.drop (appended.length - b.windowSize)
  let since := b.sinceLast + 1
  if buf.length = b.windowSize ∧ b.stride ≤ since then
    ({ b with buffer := buf, sinceLast := 0 }, true)
  else
    ({ b with buffer := buf, sinceLast := since }, false)

/-- SequenceBuffer.get_window: snapshot of the current contents, oldest first. -/
def SequenceBuffer.get_window (b : SequenceBuffer α) : List α :=
  b.buffer

/-- SequenceBuffer.reset: empty the buffer and the stride counter. -/
def SequenceBuffer.reset (b : SequenceBuffer α) : SequenceBuffer α :=
  { b with buffer := [], sinceLast := 0 }

/-- Run a sequence of add calls, keeping only the final state. -/
def SequenceBuffer.runAdds (b : SequenceBuffer α) (xs : List α) : SequenceBuffer α :=
  xs.foldl (fun st x => (st.add x).1) b

/-! ## Identity lock controller (routers/pose_stream.py)

Distance-based lock-on followed by IoU tracking. Detections are modelled by
their bounding boxes; pixel and metre quantities are rationals. -/

structure BBox where
  x1 : ℚ
  y1 : ℚ
  x2 : ℚ
  y2 : ℚ
deriving DecidableEq

/-- Pixel height of a bounding box, floored at 1 as in the source
(bbox_h = max(y2 - y1, 1)). -/
def bboxHeight (b : BBox) : ℚ := max (b.y2 - b.y1) 1

/-- Distance estimate for a detection: focal height divided by bbox height
(estimated_dist = _focal_height / bbox_h). -/
def estimatedDist (focal : ℚ) (b : BBox) : ℚ := focal / bboxHeight b

/-- The loop body of _match_target: scan detections keeping the one whose
estimated distance is closest to the beacon distance (strictly smaller
difference replaces the incumbent, so the first minimiser wins ties). -/
def matchFold (focal bleDist : ℚ) (dets : List BBox) : Option (BBox × ℚ) :=
  dets.foldl (fun best d =>
    let diff := |estimatedDist focal d - bleDist|
    match best with
    | none => some (d, diff)
    | some (b0, d0) => if diff < d0 then some (d, diff) else some (b0, d0)) none

/-- The _match_target function: returns (matched detection, beacon distance,
new focal height). With no detections or no beacon device it matches nothing
and leaves the calibration unchanged; otherwise it picks the
minimum-difference detection and refines the focal height to
beacon_distance times the matched bbox height (_refine_focal). -/
def matchTarget (focal : ℚ) (dets : List BBox) (ble : List ℚ) :
    Option BBox × Option ℚ × ℚ :=
  if dets = [] ∨ ble = [] then (none, none, focal)
  else
    let bleDist := ble.headD 999
    match matchFold focal bleDist dets with
    | some (b, _) => (some b, some bleDist, bleDist * bboxHeight b)
    | none => (none, some bleDist, focal)

/-- Intersection-over-union of two boxes (_iou). -/
def iou (a b : BBox) : ℚ :=
  let xa := max a.x1 b.x1
  let ya := max a.y1 b.y1
  let xb := min a.x2 b.x2
  let yb := min a.y2 b.y2
  let inter := max 0 (xb - xa) * max 0 (yb - ya)
  let areaA := (a.x2 - a.x1) * (a.y2 - a.y1)
  let areaB := (b.x2 - b.x1) * (b.y2 - b.y1)
  let union := areaA + areaB - inter
  if 0 < union then inter / union else 0

/-- The tracking-branch scan: best IoU so far (starting at 0) and the
detection achieving it (strict improvement replaces, so a detection is only
recorded when its overlap is positive). -/
def bestIouFold (tb : BBox) (dets : List BBox) : ℚ × Option BBox :=
  dets.foldl (fun acc d =>
    let ov := iou tb d
    if acc.1 < ov then (ov, some d) else acc) (0, none)

/-- Maximum IoU of the previous target box against the current detections. -/
def maxIou (tb : BBox) (dets : List BBox) : ℚ :=
  dets.foldl (fun m d => max m (iou tb d)) 0

inductive TrackMode
  | INACTIVE
  | LOCKON
  | TRACKING
deriving DecidableEq

/-- Mutable controller state carried across frames by the background loop:
the target bounding box (none means lock-on), the consecutive-loss counter,
the calibration scale (_focal_height) and the published tracking mode. -/
structure LockState where
  targetBbox : Option BBox
  lostCount : ℕ
  focalHeight : ℚ
  mode : TrackMode
deriving DecidableEq

/-- Fixed IoU acceptance threshold (IOU_THRESHOLD = 0.3). -/
def iouThreshold : ℚ := 3 / 10

/-- Fixed loss tolerance (LOST_FRAMES_BEFORE_RELOCK = 15). -/
def lostFramesBeforeRelock : ℕ := 15

/-- One active frame of the controller (_bg_loop with _active set and no
pending relock request). With no target: lock-on via matchTarget, entering
TRACKING with the loss counter cleared on a match. With a target: IoU scan;
a hit updates the target and clears the counter, a miss increments it and,
past the loss tolerance, drops the target (so the next frame re-enters
lock-on) and requests the feature-engineer/buffer reset reported by the
returned flag. -/
def activeStep (s : LockState) (dets : List BBox) (ble : List ℚ) :
    LockState × Bool :=
  match s.targetBbox with
  | none =>
    match matchTarget s.focalHeight dets ble with
    | (some b, _, focal2) =>
      ({ targetBbox := some b, lostCount := 0, focalHeight := focal2,
          mode := TrackMode.TRACKING }, false)
    | (none, _, focal2) =>
      ({ s with mode := TrackMode.LOCKON, focalHeight := focal2 }, false)
  | some tb =>
    let miss : LockState × Bool :=
      let lc := s.lostCount + 1
      if lostFramesBeforeRelock < lc then
        ({ s with targetBbox := none, lostCount := lc, mode := TrackMode.TRACKING },
          true)
      else
        ({ s with lostCount := lc, mode := TrackMode.TRACKING }, false)
    match bestIouFold tb dets with
    | (bi, some d) =>
      if iouThreshold ≤ bi then
        ({ s with targetBbox := some d, lostCount := 0, mode := TrackMode.TRACKING },
          false)
      else miss
    | (_, none) => miss

def c2Box : BBox := ⟨0, 0, 10, 100⟩

def c2State : LockState := ⟨none, 0, 1000, TrackMode.LOCKON⟩

def c3Box : BBox := ⟨0, 0, 10, 10⟩

def c3State : LockState := ⟨some c3Box, 0, 100, TrackMode.TRACKING⟩

def c6Box : BBox := ⟨0, 0, 10, 100⟩

def c6State : LockState := ⟨none, 0, 1000, TrackMode.LOCKON⟩

def c6State2 : LockState := ⟨none, 3, 500, TrackMode.LOCKON⟩

/-! ## Anomaly scorer adapter (core/lstm_inference.py)

The LSTM autoencoder itself is an external collaborator; it is modelled as
an opaque window-to-window function carried by the predictor record. The
adapter normalises the window, applies the model, takes the mean squared
reconstruction error, and compares it strictly against the threshold. -/

/-- Normalisation epsilon (1e-8) used by AnomalyPredictor._normalize. -/
def normEps : ℚ := 1 / 100000000

structure AnomalyPredictor where
  model : List (List ℚ) → List (List ℚ)
  mean : List ℚ
  std : List ℚ
  threshold : ℚ

/-- Per-feature normalisation (t - mean) / (std + 1e-8), broadcast over the
window rows. -/
def AnomalyPredictor.normalize (P : AnomalyPredictor) (w : List (List ℚ)) :
    List (List ℚ) :=
  w.map (fun row =>
    List.zipWith (fun v ms => (v - ms.1) / (ms.2 + normEps)) row (P.mean.zip P.std))

/-- Mean squared error over all entries of two equally shaped tensors
(torch.mean of the squared difference). -/
def meanSqErr (x y : List (List ℚ)) : ℚ :=
  let ds := List.zipWith (fun a b => (a - b) ^ 2) x.flatten y.flatten
  ds.sum / ds.length

structure PredictOut where
  score : ℚ
  is_anomaly : Bool
  threshold : ℚ
deriving DecidableEq

/-- AnomalyPredictor.predict: normalise, reconstruct through the model,
score by mean squared error, and flag an anomaly when the score strictly
exceeds the threshold. -/
def AnomalyPredictor.predict (P : AnomalyPredictor) (window : List (List ℚ)) :
    PredictOut :=
  let x := P.normalize window
  let r := P.model x
  let mse := meanSqErr x r
  { score := mse, is_anomaly := decide (P.threshold < mse), threshold := P.threshold }

def c10Predictor : AnomalyPredictor :=
  { model := fun x => x, mean := [0], std := [1], threshold := 0 }

/-! ## Anomaly classifier (core/anomaly_classifier.py)

A window is a list of frames, each frame being the 75-feature vector viewed
as a function from feature index to value. Checks are real-number
predicates; a label score is the fraction of true checks, compared against
a per-label minimum, with resolution by priority then score and an
unconditional FAINTING override. -/

abbrev AWindow : Type := List (ℕ → ℝ)

inductive ALabel
  | FAINTING
  | SWAYING
  | CROUCHING
  | HANDONHEAD
  | UNKNOWN
deriving DecidableEq

/-- Column i of the window (window[:, i]). -/
def wcol (w : AWindow) (i : ℕ) : List ℝ := w.map (fun r => r i)

/-- First element of a column (index [0]). -/
def colFirst (xs : List ℝ) : ℝ := xs.headD 0

/-- Last element of a column (index [-1]). -/
def colLast (xs : List ℝ) : ℝ := xs.getLastD 0

/-- np.mean of a column. -/
noncomputable def npMean (xs : List ℝ) : ℝ := xs.sum / xs.length

/-- np.std of a column (population standard deviation). -/
noncomputable def npStd (xs : List ℝ) : ℝ :=
  Real.sqrt (npMean (xs.map (fun v => (v - npMean xs) ^ 2)))

/-- np.max of np.abs of a column. -/
noncomputable def npMaxAbs (xs : List ℝ) : ℝ := (xs.map (fun v => |v|)).foldr max 0

open Classical in
/-- Number of true conditions in a list of checks. -/
noncomputable def countTrue : List Prop → ℕ
  | [] => 0
  | p :: ps => (if p then 1 else 0) + countTrue ps

/-- Match score of a check set: count of true checks over total checks. -/
noncomputable def checkScore (cs : List Prop) : ℝ := (countTrue cs : ℝ) / cs.length

open Classical in
/-- np.mean of a per-frame boolean array: fraction of frames satisfying P. -/
noncomputable def fracTrue (w : AWindow) (P : (ℕ → ℝ) → Prop) : ℝ :=
  (countTrue (w.map P) : ℝ) / w.length

/-- FAINTING checks, in source order: nose_drop, fast_drop, went_horizontal,
knee_buckle, hip_drop. -/
noncomputable def faintChecks (w : AWindow) : List Prop :=
  [colLast (wcol w 68) - colFirst (wcol w 68) > 0.06,
   npMaxAbs (wcol w 35) > 0.02,
   colLast (wcol w 74) > colFirst (wcol w 74) * 1.3,
   colLast (wcol w 73) < colFirst (wcol w 73) - 0.2,
   colLast (wcol w 69) - colFirst (wcol w 69) > 0.05]

/-- SWAYING checks: nose_oscillation, hip_oscillation, still_upright,
shoulder_wobble. -/
noncomputable def swayChecks (w : AWindow) : List Prop :=
  [npStd (wcol w 68) > 0.015,
   npStd (wcol w 69) > 0.01,
   |colLast (wcol w 68) - colFirst (wcol w 68)| < 0.08,
   npStd (wcol w 72) > 0.05]

/-- CROUCHING checks: knees_bent, hip_lowered, torso_compressed,
still_vertical. -/
noncomputable def crouchChecks (w : AWindow) : List Prop :=
  [colLast (wcol w 73) < colFirst (wcol w 73) - 0.2,
   colLast (wcol w 69) - colFirst (wcol w 69) > 0.05,
   colLast (wcol w 70) < colFirst (wcol w 70) * 0.8,
   colLast (wcol w 74) < 1.0]

/-- Left wrist well above the nose and near the head in x, per frame. -/
def lOnHead (r : ℕ → ℝ) : Prop := r 19 < r 68 + (-0.03) ∧ |r 18 - r 0| < 0.12

/-- Right wrist well above the nose and near the head in x, per frame. -/
def rOnHead (r : ℕ → ℝ) : Prop := r 21 < r 68 + (-0.03) ∧ |r 20 - r 0| < 0.12

/-- At least 40 percent of frames show either hand on the head. -/
noncomputable def handSustained (w : AWindow) : Prop :=
  fracTrue w lOnHead > 0.4 ∨ fracTrue w rOnHead > 0.4

/-- HAND ON HEAD checks: wrist_on_head, shoulder_raised, no_drop,
still_upright. -/
noncomputable def hohChecks (w : AWindow) : List Prop :=
  [handSustained w,
   npMean (wcol w 72) > 0.3,
   |colLast (wcol w 68) - colFirst (wcol w 68)| < 0.04,
   npMean (wcol w 74) < 0.6]

/-- Check set of each label (UNKNOWN owns no checks). -/
noncomputable def labelChecks (w : AWindow) : ALabel → List Prop
  | ALabel.FAINTING => faintChecks w
  | ALabel.SWAYING => swayChecks w
  | ALabel.CROUCHING => crouchChecks w
  | ALabel.HANDONHEAD => hohChecks w
  | ALabel.UNKNOWN => []

/-- Per-label minimum score (_MIN_SCORE); UNKNOWN is never a candidate, so
its minimum is set above any attainable score. -/
noncomputable def minScore : ALabel → ℝ
  | ALabel.FAINTING => 0.35
  | ALabel.SWAYING => 0.50
  | ALabel.CROUCHING => 0.50
  | ALabel.HANDONHEAD => 0.75
  | ALabel.UNKNOWN => 2

/-- Fixed integer priority of each label. -/
def labelPri : ALabel → ℤ
  | ALabel.FAINTING => 10
  | ALabel.SWAYING => 3
  | ALabel.CROUCHING => 2
  | ALabel.HANDONHEAD => 1
  | ALabel.UNKNOWN => 0

/-- Match score of a label on a window. -/
noncomputable def labelScore (w : AWindow) (L : ALabel) : ℝ :=
  checkScore (labelChecks w L)

/-- A label qualifies when its score meets its per-label minimum. -/
noncomputable def qualifies (w : AWindow) (L : ALabel) : Prop :=
  minScore L ≤ labelScore w L

/-- The (priority, score) key, ordered lexicographically. -/
noncomputable def labelKey (w : AWindow) (L : ALabel) : Lex (ℤ × ℝ) :=
  toLex (labelPri L, labelScore w L)

/-- Candidate labels in the dictionary order of the source. -/
def candidateLabels : List ALabel :=
  [ALabel.FAINTING, ALabel.SWAYING, ALabel.CROUCHING, ALabel.HANDONHEAD]

open Classical in
/-- Python max over the qualifying labels with key (priority, score): scan
keeping the incumbent unless the new key is strictly greater. -/
noncomputable def pickBest (w : AWindow) : List ALabel → ALabel
  | [] => ALabel.UNKNOWN
  | L :: Ls => Ls.foldl (fun acc M => if labelKey w acc < labelKey w M then M else acc) L

open Classical in
/-- Boolean view of qualification, used by the filter over candidates. -/
noncomputable def qualifiesb (w : AWindow) (L : ALabel) : Bool :=
  decide (qualifies w L)

/-- classify_anomaly: collect qualifying labels, return UNKNOWN when none,
FAINTING unconditionally when it qualifies, otherwise the qualifying label
with the greatest (priority, score) key. -/
noncomputable def classify_anomaly (w : AWindow) : ALabel :=
  let qs := candidateLabels.filter (qualifiesb w)
  if qs.isEmpty then ALabel.UNKNOWN
  else if ALabel.FAINTING ∈ qs then ALabel.FAINTING
  else pickBest w qs

def c1r0 : ℕ → ℝ := fun i => if i = 73 then 0.5 else 0

def c1r1 : ℕ → ℝ := fun i =>
  if i = 68 then 0.1 else if i = 69 then 0.1 else
  if i = 72 then 0.2 else if i = 73 then 0.5 else 0

def c1r2 : ℕ → ℝ := fun i =>
  if i = 68 then 0.05 else if i = 69 then 0.06 else if i = 73 then 0.2 else 0

/-- Adversarial three-frame window: FAINTING scores exactly 2 of 5 checks
(knee buckle and hip drop) while SWAYING scores a perfect 1.0. -/
def c1w : AWindow := [c1r0, c1r1, c1r2]

def c5r0 : ℕ → ℝ := fun _ => 0

def c5r1 : ℕ → ℝ := fun i => if i = 68 then 0.1 else 0

/-- Three-frame window in which only SWAYING qualifies (nose oscillation
plus an unchanged final position). -/
def c5w : AWindow := [c5r0, c5r1, c5r0]

/-! ## Feature engineer (core/feature_engineering.py)

Raw (17, 3) keypoints become a 75-entry feature vector: 34 normalised
coordinates, 34 per-frame deltas, and 7 engineered scalars. The previous
normalised coordinates are the only state. -/

/-- Epsilon guarding the angle and ratio divisions (1e-8). -/
noncomputable def feEps : ℝ := 1 / 100000000

/-- Euclidean norm of a planar vector (np.linalg.norm). -/
noncomputable def vnorm (v : ℝ × ℝ) : ℝ := Real.sqrt (v.1 ^ 2 + v.2 ^ 2)

/-- Dot product of two planar vectors (np.dot). -/
noncomputable def vdot (u v : ℝ × ℝ) : ℝ := u.1 * v.1 + u.2 * v.2

/-- The source _joint_angle: arccos of the clipped cosine, with the epsilon
added once to the product of the two norms in the denominator. -/
noncomputable def _joint_angle (a vertex c : ℝ × ℝ) : ℝ :=
  let v1 : ℝ × ℝ := (a.1 - vertex.1, a.2 - vertex.2)
  let v2 : ℝ × ℝ := (c.1 - vertex.1, c.2 - vertex.2)
  let cosA := vdot v1 v2 / (vnorm v1 * vnorm v2 + feEps)
  Real.arccos (max (-1) (min 1 cosA))

/-- The joint angle as the specification words it, for comparison with the
source: the epsilon added to each of the two norms separately before they
are multiplied. -/
noncomputable def jointAngleSpecWorded (a vertex c : ℝ × ℝ) : ℝ :=
  let v1 : ℝ × ℝ := (a.1 - vertex.1, a.2 - vertex.2)
  let v2 : ℝ × ℝ := (c.1 - vertex.1, c.2 - vertex.2)
  let cosA := vdot v1 v2 / ((vnorm v1 + feEps) * (vnorm v2 + feEps))
  Real.arccos (max (-1) (min 1 cosA))

/-- The only state of the feature engineer: the previous frame's normalised
coordinates, when any. -/
structure FeatureEngineer where
  prevXY : Option (Fin 17 → ℝ × ℝ)

/-- Normalise pixel coordinates to the unit square by the frame size. -/
noncomputable def normXY (kps : Fin 17 → ℝ × ℝ × ℝ) (fw fh : ℝ) :
    Fin 17 → ℝ × ℝ :=
  fun i => ((kps i).1 / fw, (kps i).2.1 / fh)

/-- Row-major flattening of the 17 coordinate pairs: joint i contributes
x at index 2i and y at index 2i+1. -/
noncomputable def flat34 (f : Fin 17 → ℝ × ℝ) : Fin 34 → ℝ := fun j =>
  if j.val % 2 = 0 then (f ⟨j.val / 2, by have := j.isLt; omega⟩).1
  else (f ⟨j.val / 2, by have := j.isLt; omega⟩).2

/-- FeatureEngineer.compute: normalised coordinates, velocity deltas against
the stored previous frame (zeros when there is none), and the 7 engineered
scalars; returns the feature vector together with the updated state. -/
noncomputable def FeatureEngineer.compute (e : FeatureEngineer)
    (kps : Fin 17 → ℝ × ℝ × ℝ) (fw fh : ℝ) : List ℝ × FeatureEngineer :=
  let xy := normXY kps fw fh
  let raw := List.ofFn (flat34 xy)
  let delta :=
    match e.prevXY with
    | some p => List.ofFn (fun j => flat34 xy j - flat34 p j)
    | none => List.replicate 34 (0 : ℝ)
  let nose := xy ⟨0, by norm_num⟩
  let lSh := xy ⟨5, by norm_num⟩
  let rSh := xy ⟨6, by norm_num⟩
  let lEl := xy ⟨7, by norm_num⟩
  let rEl := xy ⟨8, by norm_num⟩
  let lHp := xy ⟨11, by norm_num⟩
  let rHp := xy ⟨12, by norm_num⟩
  let lKn := xy ⟨13, by norm_num⟩
  let rKn := xy ⟨14, by norm_num⟩
  let lAk := xy ⟨15, by norm_num⟩
  let rAk := xy ⟨16, by norm_num⟩
  let shoulderMid : ℝ × ℝ := ((lSh.1 + rSh.1) / 2, (lSh.2 + rSh.2) / 2)
  let hipMid : ℝ × ℝ := ((lHp.1 + rHp.1) / 2, (lHp.2 + rHp.2) / 2)
  let ankleMid : ℝ × ℝ := ((lAk.1 + rAk.1) / 2, (lAk.2 + rAk.2) / 2)
  let noseY := nose.2
  let hipY := hipMid.2
  let torsoLen := vnorm (shoulderMid.1 - hipMid.1, shoulderMid.2 - hipMid.2)
  let fullHeight := vnorm (nose.1 - ankleMid.1, nose.2 - ankleMid.2)
  let shoulderAngle := (_joint_angle lEl lSh lHp + _joint_angle rEl rSh rHp) / 2
  let kneeAngle := (_joint_angle lHp lKn lAk + _joint_angle rHp rKn rAk) / 2
  let vertRat := torsoLen / (fullHeight + feEps)
  (raw ++ delta ++
    [noseY, hipY, torsoLen, fullHeight, shoulderAngle, kneeAngle, vertRat],
   ⟨some xy⟩)

/-- FeatureEngineer.reset: forget the previous frame. -/
def FeatureEngineer.reset (_ : FeatureEngineer) : FeatureEngineer := ⟨none⟩

/-! ## Theorems

The buffer invariants come first, then the lock controller, the scorer
adapter, the classifier and the feature engineer. -/

lemma SequenceBuffer.runAdds_append (b : SequenceBuffer α) (xs : List α) (x : α) :
    b.runAdds (xs ++ [x]) = ((b.runAdds xs).add x).1 := by
  simp [SequenceBuffer.runAdds]

/-- Helper: successor modulo behaviour used by the stride counter. -/
lemma succ_mod_spec (k s : ℕ) (hs : 1 ≤ s) :
    (k % s = s - 1 → (k + 1) % s = 0) ∧ (k % s + 1 < s → (k + 1) % s = k % s + 1) := by
  constructor
  · intro h
    have hk := Nat.mod_add_div k s
    have hms : s * (k / s + 1) = s * (k / s) + s := Nat.mul_succ s (k / s)
    have : k + 1 = s * (k / s + 1) := by omega
    rw [this]
    exact Nat.mul_mod_right s _
  · intro h
    have hk := Nat.mod_add_div k s
    have : k + 1 = (k % s + 1) + s * (k / s) := by omega
    rw [this, Nat.add_mul_mod_self_left, Nat.mod_eq_of_lt h]

/-- State invariant of the buffer after an arbitrary run of adds from a fresh
buffer: the contents are the last windowSize inputs in order and the stride
counter tracks additions since the last ready window. -/
lemma SequenceBuffer.runAdds_eq (w nf s : ℕ) (hw : 1 ≤ w) (hs : 1 ≤ s)
    (hsw : s ≤ w) (xs : List α) :
    (SequenceBuffer.new α w nf s).runAdds xs =
      ⟨w, nf, s, xs.drop (xs.length - w),
        if xs.length < w then xs.length else (xs.length - w) % s⟩ := by
  induction xs using List.reverseRecOn with
  | nil => simp [SequenceBuffer.runAdds, SequenceBuffer.new]
  | append_singleton xs x ih =>
    rw [SequenceBuffer.runAdds_append, ih]
    have hdroplen : (xs.drop (xs.length - w)).length = min xs.length w := by
      simp [List.length_drop]; omega
    rcases lt_or_ge (xs.length + 1) w with hcase | hcase
    · -- still filling: not yet full, no ready signal
      have h0 : xs.length - w = 0 := by omega
      have h0x : xs.length + 1 - w = 0 := by omega
      simp only [SequenceBuffer.add, h0, List.drop_zero, List.length_append,
        List.length_singleton]
      rw [if_neg (by simp; omega)]
      simp only [h0x, List.drop_zero, List.length_append, List.length_singleton]
      rw [if_pos (by omega), if_pos (by omega)]
    · rcases Nat.lt_or_ge xs.length w with hfill | hfull
      · -- this add fills the buffer for the first time; since = w >= s: ready
        have hxw : xs.length + 1 = w := by omega
        have h0 : xs.length - w = 0 := by omega
        have h0x : xs.length + 1 - w = 0 := by omega
        simp only [SequenceBuffer.add, h0, List.drop_zero, List.length_append,
          List.length_singleton]
        rw [if_pos (by rw [if_pos hfill]; simp; omega)]
        simp only [h0x, List.drop_zero]
        rw [if_neg (by omega)]
        simp [h0x]
      · -- steady state: buffer already full
        have hlenfull : (xs.drop (xs.length - w)).length = w := by
          rw [hdroplen]; omega
        have hlen : (xs.drop (xs.length - w) ++ [x]).length = w + 1 := by
          simp [hlenfull]
        have harith : xs.length + 1 - w = (xs.length - w) + 1 := by omega
        have hdrop : (xs.drop (xs.length - w) ++ [x]).drop
            ((xs.drop (xs.length - w) ++ [x]).length - w)
            = (xs ++ [x]).drop (xs.length + 1 - w) := by
          rw [hlen]
          have h1 : w + 1 - w = 1 := by omega
          rw [h1]
          rw [List.drop_append_of_le_length (by rw [hlenfull]; omega)]
          rw [List.drop_append_of_le_length (by omega)]
          rw [List.drop_drop]
          congr 2
          omega
        have hself : (if xs.length < w then xs.length else (xs.length - w) % s)
            = (xs.length - w) % s := by rw [if_neg (by omega)]
        simp only [SequenceBuffer.add, hself]
        have hbuflen2 : ((xs.drop (xs.length - w) ++ [x]).drop
            ((xs.drop (xs.length - w) ++ [x]).length - w)).length = w := by
          simp only [List.length_drop, hlen]
          omega
        rcases Nat.lt_or_ge ((xs.length - w) % s + 1) s with hnr | hr
        · -- not ready this add
          rw [if_neg (by intro hcontra; omega)]
          have hm := (succ_mod_spec (xs.length - w) s hs).2 hnr
          simp only [hdrop]
          rw [if_neg (by simp; omega)]
          simp only [List.length_append, List.length_singleton, harith, hm]
        · -- ready this add: counter hit the stride
          rw [if_pos ⟨hbuflen2, hr⟩]
          have hub := Nat.mod_lt (xs.length - w) (show 0 < s by omega)
          have hmod : (xs.length - w) % s = s - 1 := by omega
          have hm := (succ_mod_spec (xs.length - w) s hs).1 hmod
          simp only [hdrop]
          rw [if_neg (by simp; omega)]
          simp only [List.length_append, List.length_singleton, harith, hm]

/-- Readiness characterisation: an add reports ready exactly when the buffer
is full (at least window_size inputs seen) and the number of additions past
the first fill is a multiple of the stride. -/
lemma SequenceBuffer.add_ready_iff (w nf s : ℕ) (hw : 1 ≤ w) (hs : 1 ≤ s)
    (hsw : s ≤ w) (xs : List α) (x : α) :
    (((SequenceBuffer.new α w nf s).runAdds xs).add x).2 = true ↔
      (w ≤ xs.length + 1 ∧ (xs.length + 1 - w) % s = 0) := by
  rw [SequenceBuffer.runAdds_eq w nf s hw hs hsw xs]
  have hdroplen : (xs.drop (xs.length - w)).length = min xs.length w := by
    simp [List.length_drop]; omega
  simp only [SequenceBuffer.add]
  rcases lt_or_ge (xs.length + 1) w with hcase | hcase
  · rw [if_neg (by simp; omega)]
    simp; omega
  · rcases Nat.lt_or_ge xs.length w with hfill | hfull
    · -- the filling add: ready fires, and the arithmetic side holds too
      rw [if_pos (by rw [if_pos hfill]; simp; omega)]
      simp only [true_iff]
      refine ⟨by omega, ?_⟩
      have h0x : xs.length + 1 - w = 0 := by omega
      rw [h0x]
      exact Nat.zero_mod s
    · have hself : (if xs.length < w then xs.length else (xs.length - w) % s)
          = (xs.length - w) % s := by rw [if_neg (by omega)]
      rw [hself]
      have harith : xs.length + 1 - w = (xs.length - w) + 1 := by omega
      rcases Nat.lt_or_ge ((xs.length - w) % s + 1) s with hnr | hr
      · rw [if_neg (by intro hcontra; omega)]
        have hm := (succ_mod_spec (xs.length - w) s hs).2 hnr
        simp only [Bool.false_eq_true, false_iff, not_and]
        intro h1 h2
        rw [harith, hm] at h2
        omega
      · rw [if_pos ⟨by simp [List.length_drop, hdroplen]; omega, hr⟩]
        simp only [true_iff]
        have hub := Nat.mod_lt (xs.length - w) (show 0 < s by omega)
        have hmod : (xs.length - w) % s = s - 1 := by omega
        have hm := (succ_mod_spec (xs.length - w) s hs).1 hmod
        refine ⟨by omega, ?_⟩
        rw [harith, hm]

/-! ### Identity lock controller -/

/-- The matchFold scan starting from an incumbent returns an entry whose
difference is the smallest among the incumbent and all scanned detections. -/
lemma matchFold_go (focal bleDist : ℚ) :
    ∀ (l : List BBox) (b0 : BBox) (d0 : ℚ),
      ∃ m dm, (l.foldl (fun best d =>
          let diff := |estimatedDist focal d - bleDist|
          match best with
          | none => some (d, diff)
          | some (b1, d1) => if diff < d1 then some (d, diff) else some (b1, d1))
          (some (b0, d0))) = some (m, dm) ∧
        ((m = b0 ∧ dm = d0) ∨ (m ∈ l ∧ dm = |estimatedDist focal m - bleDist|)) ∧
        dm ≤ d0 ∧ ∀ d ∈ l, dm ≤ |estimatedDist focal d - bleDist| := by
  intro l
  induction l with
  | nil =>
    intro b0 d0
    exact ⟨b0, d0, rfl, Or.inl ⟨rfl, rfl⟩, le_refl _, by simp⟩
  | cons d t ih =>
    intro b0 d0
    simp only [List.foldl_cons]
    by_cases hlt : |estimatedDist focal d - bleDist| < d0
    · rw [if_pos hlt]
      obtain ⟨m, dm, heq, hsrc, hle, hall⟩ := ih d (|estimatedDist focal d - bleDist|)
      refine ⟨m, dm, heq, ?_, ?_, ?_⟩
      · rcases hsrc with ⟨hm, hdm⟩ | ⟨hm, hdm⟩
        · exact Or.inr ⟨by simp [hm], by rw [hdm, hm]⟩
        · exact Or.inr ⟨by simp [hm], hdm⟩
      · exact le_trans hle (le_of_lt hlt)
      · intro d2 hd2
        rcases List.mem_cons.mp hd2 with h | h
        · rw [h]; exact hle
        · exact hall d2 h
    · rw [if_neg hlt]
      obtain ⟨m, dm, heq, hsrc, hle, hall⟩ := ih b0 d0
      refine ⟨m, dm, heq, ?_, hle, ?_⟩
      · rcases hsrc with ⟨hm, hdm⟩ | ⟨hm, hdm⟩
        · exact Or.inl ⟨hm, hdm⟩
        · exact Or.inr ⟨by simp [hm], hdm⟩
      · intro d2 hd2
        rcases List.mem_cons.mp hd2 with h | h
        · rw [h]; exact le_trans hle (not_lt.mp hlt)
        · exact hall d2 h

/-- On a nonempty detection list matchFold returns a minimiser of the
distance difference. -/
lemma matchFold_spec (focal bleDist : ℚ) (dets : List BBox) (hne : dets ≠ []) :
    ∃ m, matchFold focal bleDist dets = some (m, |estimatedDist focal m - bleDist|) ∧
      m ∈ dets ∧
      ∀ d ∈ dets, |estimatedDist focal m - bleDist| ≤ |estimatedDist focal d - bleDist| := by
  match dets, hne with
  | d :: t, _ =>
    simp only [matchFold, List.foldl_cons]
    obtain ⟨m, dm, heq, hsrc, hle, hall⟩ := matchFold_go focal bleDist t d
      (|estimatedDist focal d - bleDist|)
    have hdm : dm = |estimatedDist focal m - bleDist| := by
      rcases hsrc with ⟨hm, hdm⟩ | ⟨hm, hdm⟩
      · rw [hdm, hm]
      · exact hdm
    have hmem : m ∈ d :: t := by
      rcases hsrc with ⟨hm, _⟩ | ⟨hm, _⟩
      · simp [hm]
      · simp [hm]
    refine ⟨m, by rw [heq, hdm], hmem, ?_⟩
    intro d2 hd2
    rcases List.mem_cons.mp hd2 with h | h
    · rw [h, ← hdm]; exact hle
    · rw [← hdm]; exact hall d2 h

/-- The best-IoU scan computes the running maximum, and records the
detection achieving it whenever the state changes from the initial one. -/
lemma bestIouFold_go (tb : BBox) :
    ∀ (l : List BBox) (m0 : ℚ) (b0 : Option BBox),
      (l.foldl (fun acc d =>
          let ov := iou tb d
          if acc.1 < ov then (ov, some d) else acc) (m0, b0)).1
        = l.foldl (fun m d => max m (iou tb d)) m0 ∧
      ((l.foldl (fun acc d =>
          let ov := iou tb d
          if acc.1 < ov then (ov, some d) else acc) (m0, b0)) = (m0, b0) ∨
        ∃ d ∈ l, (l.foldl (fun acc d =>
          let ov := iou tb d
          if acc.1 < ov then (ov, some d) else acc) (m0, b0)) = (iou tb d, some d)) := by
  intro l
  induction l with
  | nil => intro m0 b0; exact ⟨rfl, Or.inl rfl⟩
  | cons d t ih =>
    intro m0 b0
    simp only [List.foldl_cons]
    by_cases hlt : m0 < iou tb d
    · rw [if_pos hlt]
      have hmax : max m0 (iou tb d) = iou tb d := max_eq_right (le_of_lt hlt)
      obtain ⟨h1, h2⟩ := ih (iou tb d) (some d)
      constructor
      · rw [h1, hmax]
      · rcases h2 with h | ⟨d2, hd2, h⟩
        · exact Or.inr ⟨d, by simp, h⟩
        · exact Or.inr ⟨d2, by simp [hd2], h⟩
    · rw [if_neg hlt]
      have hmax : max m0 (iou tb d) = m0 := max_eq_left (not_lt.mp hlt)
      obtain ⟨h1, h2⟩ := ih m0 b0
      constructor
      · rw [h1, hmax]
      · rcases h2 with h | ⟨d2, hd2, h⟩
        · exact Or.inl h
        · exact Or.inr ⟨d2, by simp [hd2], h⟩

/-- bestIouFold against maxIou: the scalar part is the maximum IoU, and a
recorded detection realises it; with no recorded detection the maximum is 0. -/
lemma bestIouFold_spec (tb : BBox) (dets : List BBox) :
    (bestIouFold tb dets).1 = maxIou tb dets ∧
    ((bestIouFold tb dets).2 = none → maxIou tb dets = 0) ∧
    (∀ d, (bestIouFold tb dets).2 = some d → d ∈ dets ∧ iou tb d = maxIou tb dets) := by
  obtain ⟨h1, h2⟩ := bestIouFold_go tb dets 0 none
  simp only [bestIouFold, maxIou] at h1 h2 ⊢
  refine ⟨h1, ?_, ?_⟩
  · intro hn
    rcases h2 with h | ⟨d2, hd2, h⟩
    · rw [← h1, h]
    · rw [h] at hn; simp at hn
  · intro d hd
    rcases h2 with h | ⟨d2, hd2, h⟩
    · rw [h] at hd; simp at hd
    · rw [h] at hd
      simp at hd
      subst hd
      exact ⟨hd2, by rw [← h1, h]⟩

/-- Bounding-box heights are the raw pixel heights when at least 1. -/
lemma bboxHeight_eq (d : BBox) (h : 1 ≤ d.y2 - d.y1) : bboxHeight d = d.y2 - d.y1 :=
  max_eq_left h

/-- On a successful lock-on match, matchTarget returns the minimiser and the
refined calibration scale. -/
lemma matchTarget_eq_of_fold (s : LockState) (dets : List BBox) (ble : List ℚ)
    (hd : dets ≠ []) (hb : ble ≠ []) (m : BBox)
    (hfold : matchFold s.focalHeight (ble.headD 999) dets
      = some (m, |estimatedDist s.focalHeight m - ble.headD 999|)) :
    matchTarget s.focalHeight dets ble
      = (some m, some (ble.headD 999), ble.headD 999 * bboxHeight m) := by
  simp only [matchTarget, hfold]
  rw [if_neg (by simp [hd, hb])]

/-- Claim C2: in LOCK_ON with detections and a beacon reading present, the
controller picks the detection whose estimated distance (calibration scale
over bbox height) is closest to the beacon distance, enters TRACKING with
the loss counter cleared, and refines the calibration scale to exactly
beacon_distance times the matched bbox height. -/
theorem lockOn_match_c2 (s : LockState) (dets : List BBox) (ble : List ℚ)
    (hT : s.targetBbox = none) (hd : dets ≠ []) (hb : ble ≠ [])
    (hH : ∀ d ∈ dets, 1 ≤ d.y2 - d.y1) :
    ∃ m, m ∈ dets ∧
      (activeStep s dets ble).1 =
        { targetBbox := some m, lostCount := 0,
          focalHeight := ble.headD 999 * (m.y2 - m.y1),
          mode := TrackMode.TRACKING } ∧
      ∀ d ∈ dets, |s.focalHeight / (m.y2 - m.y1) - ble.headD 999|
        ≤ |s.focalHeight / (d.y2 - d.y1) - ble.headD 999| := by
  obtain ⟨m, hfold, hmem, hmin⟩ := matchFold_spec s.focalHeight (ble.headD 999) dets hd
  have hmt := matchTarget_eq_of_fold s dets ble hd hb m hfold
  refine ⟨m, hmem, ?_, ?_⟩
  · simp only [activeStep, hT, hmt, bboxHeight_eq m (hH m hmem)]
  · intro d hdm
    have := hmin d hdm
    simpa [estimatedDist, bboxHeight_eq m (hH m hmem), bboxHeight_eq d (hH d hdm)]
      using this

/-- Witness for C2: one stationary person whose bbox is 100 px tall, beacon
at 2.5 m; lock succeeds in one frame and the calibration scale becomes
2.5 x 100 = 250. -/
theorem lockOn_match_c2_witness :
    (∃ m, m ∈ [c2Box] ∧
      (activeStep c2State [c2Box] [5/2]).1 =
        { targetBbox := some m, lostCount := 0,
          focalHeight := (List.headD [5/2] 999 : ℚ) * (m.y2 - m.y1),
          mode := TrackMode.TRACKING } ∧
      ∀ d ∈ [c2Box], |c2State.focalHeight / (m.y2 - m.y1) - List.headD [5/2] 999|
        ≤ |c2State.focalHeight / (d.y2 - d.y1) - List.headD [5/2] 999|) ∧
    (activeStep c2State [c2Box] [5/2]).1.focalHeight = 250 ∧
    (activeStep c2State [c2Box] [5/2]).1.mode = TrackMode.TRACKING :=
  ⟨lockOn_match_c2 c2State [c2Box] [5/2] rfl (by simp) (by simp)
    (by intro d hd; simp only [List.mem_singleton] at hd; subst hd; norm_num [c2Box]),
   by norm_num [activeStep, c2State, c2Box, matchTarget, matchFold, estimatedDist,
     bboxHeight],
   by norm_num [activeStep, c2State, c2Box, matchTarget, matchFold, estimatedDist,
     bboxHeight]⟩

/-- Claim C3: in TRACKING, a frame whose best IoU meets the threshold makes
the maximising detection the new target with the loss counter cleared; a
miss increments the counter by exactly 1 and the target is dropped (with the
reset signal raised) exactly when the counter strictly exceeds the loss
tolerance, never before. -/
theorem tracking_step_c3 (s : LockState) (tb : BBox) (dets : List BBox)
    (ble : List ℚ) (hT : s.targetBbox = some tb) :
    (iouThreshold ≤ maxIou tb dets →
      ∃ d, d ∈ dets ∧ iou tb d = maxIou tb dets ∧
        (activeStep s dets ble).1 =
          { s with targetBbox := some d, lostCount := 0, mode := TrackMode.TRACKING } ∧
        (activeStep s dets ble).2 = false) ∧
    (maxIou tb dets < iouThreshold →
      (activeStep s dets ble).1.lostCount = s.lostCount + 1 ∧
      ((activeStep s dets ble).1.targetBbox = none ↔
        lostFramesBeforeRelock < s.lostCount + 1) ∧
      ((activeStep s dets ble).2 = true ↔
        lostFramesBeforeRelock < s.lostCount + 1) ∧
      (s.lostCount + 1 ≤ lostFramesBeforeRelock →
        (activeStep s dets ble).1.targetBbox = some tb)) := by
  obtain ⟨h1, h2, h3⟩ := bestIouFold_spec tb dets
  constructor
  · intro hth
    have hbipos : maxIou tb dets ≠ 0 := by
      intro h0
      rw [h0] at hth
      norm_num [iouThreshold] at hth
    rcases hbd : (bestIouFold tb dets).2 with _ | d
    · exact absurd (h2 hbd) hbipos
    · obtain ⟨hdm, hdi⟩ := h3 d hbd
      have hpair : bestIouFold tb dets = (maxIou tb dets, some d) := by
        have hp : ((bestIouFold tb dets).1, (bestIouFold tb dets).2)
            = bestIouFold tb dets := Prod.mk.eta
        rw [h1, hbd] at hp
        exact hp.symm
      refine ⟨d, hdm, hdi, ?_, ?_⟩ <;>
        simp only [activeStep, hT, hpair, if_pos hth]
  · intro hlt
    have hmiss : ∀ P : (LockState × Bool) → Prop,
        (lostFramesBeforeRelock < s.lostCount + 1 →
          P ({ s with targetBbox := none, lostCount := s.lostCount + 1, mode := TrackMode.TRACKING }, true)) →
        (¬ lostFramesBeforeRelock < s.lostCount + 1 →
          P ({ targetBbox := some tb, lostCount := s.lostCount + 1, focalHeight := s.focalHeight, mode := TrackMode.TRACKING }, false)) →
        P (activeStep s dets ble) := by
      intro P hyes hno
      rcases hbd : (bestIouFold tb dets).2 with _ | d
      · have hpair : bestIouFold tb dets = (maxIou tb dets, none) := by
          have hp : ((bestIouFold tb dets).1, (bestIouFold tb dets).2)
              = bestIouFold tb dets := Prod.mk.eta
          rw [h1, hbd] at hp
          exact hp.symm
        simp only [activeStep, hT, hpair]
        by_cases h15 : lostFramesBeforeRelock < s.lostCount + 1
        · rw [if_pos h15]; exact hyes h15
        · rw [if_neg h15]; exact hno h15
      · have hpair : bestIouFold tb dets = (maxIou tb dets, some d) := by
          have hp : ((bestIouFold tb dets).1, (bestIouFold tb dets).2)
              = bestIouFold tb dets := Prod.mk.eta
          rw [h1, hbd] at hp
          exact hp.symm
        simp only [activeStep, hT, hpair, if_neg (not_le.mpr hlt)]
        by_cases h15 : lostFramesBeforeRelock < s.lostCount + 1
        · rw [if_pos h15]; exact hyes h15
        · rw [if_neg h15]; exact hno h15
    refine hmiss (fun r =>
        r.1.lostCount = s.lostCount + 1 ∧
        (r.1.targetBbox = none ↔ lostFramesBeforeRelock < s.lostCount + 1) ∧
        (r.2 = true ↔ lostFramesBeforeRelock < s.lostCount + 1) ∧
        (s.lostCount + 1 ≤ lostFramesBeforeRelock → r.1.targetBbox = some tb)) ?_ ?_
    · intro h15
      exact ⟨rfl, by simp [h15], by simp [h15], fun hle => absurd h15 (by omega)⟩
    · intro h15
      exact ⟨rfl, by simp [h15], by simp [h15], fun _ => rfl⟩

/-- Witness for C3: the single detection coincides with the previous target
box (IoU 1), so it is re-accepted and the loss counter stays 0. -/
theorem tracking_step_c3_witness :
    ∃ d, d ∈ [c3Box] ∧ iou c3Box d = maxIou c3Box [c3Box] ∧
      (activeStep c3State [c3Box] []).1 =
        { c3State with targetBbox := some d, lostCount := 0, mode := TrackMode.TRACKING } ∧
      (activeStep c3State [c3Box] []).2 = false :=
  (tracking_step_c3 c3State c3Box [c3Box] [] rfl).1
    (by norm_num [iouThreshold, maxIou, iou, c3Box])

/-- Counterexample to claim C6 as stated: during lock-on the code never
checks any tolerance. Here the only detection has estimated distance 10 m
while the beacon reports 0.1 m (difference 9.9 m), yet the controller still
selects it as target and enters TRACKING instead of staying in LOCK_ON. -/
theorem lockOn_tolerance_counterexample_c6 :
    |estimatedDist (1000 : ℚ) c6Box - (1/10 : ℚ)| = 99/10 ∧
    (activeStep c6State [c6Box] [1/10]).1.mode = TrackMode.TRACKING ∧
    (activeStep c6State [c6Box] [1/10]).1.targetBbox = some c6Box := by
  refine ⟨?_, ?_, ?_⟩ <;>
    norm_num [activeStep, c6State, c6Box, matchTarget, matchFold, estimatedDist,
      bboxHeight]

/-- Amended C6: during lock-on the controller stays in LOCK_ON without a
target exactly when there are no detections or no beacon reading (retrying
next frame, state otherwise unchanged); whenever both are present it always
selects the minimum-difference detection, with no tolerance bound. -/
theorem lockOn_gap_behavior_c6 (s : LockState) (dets : List BBox) (ble : List ℚ)
    (hT : s.targetBbox = none) :
    ((dets = [] ∨ ble = []) →
      (activeStep s dets ble).1 = { s with mode := TrackMode.LOCKON } ∧
      (activeStep s dets ble).1.targetBbox = none ∧
      (activeStep s dets ble).2 = false) ∧
    (dets ≠ [] → ble ≠ [] →
      ∃ m, m ∈ dets ∧ (activeStep s dets ble).1.targetBbox = some m ∧
        (activeStep s dets ble).1.mode = TrackMode.TRACKING ∧
        ∀ d ∈ dets, |estimatedDist s.focalHeight m - ble.headD 999|
          ≤ |estimatedDist s.focalHeight d - ble.headD 999|) := by
  constructor
  · intro hgap
    have hmt : matchTarget s.focalHeight dets ble = (none, none, s.focalHeight) := by
      simp only [matchTarget, if_pos hgap]
    refine ⟨?_, ?_, ?_⟩ <;> simp [activeStep, hT, hmt]
  · intro hd hb
    obtain ⟨m, hfold, hmem, hmin⟩ := matchFold_spec s.focalHeight (ble.headD 999) dets hd
    have hmt := matchTarget_eq_of_fold s dets ble hd hb m hfold
    refine ⟨m, hmem, ?_, ?_, hmin⟩ <;> simp [activeStep, hT, hmt]

/-- Witness for the amended C6: with no detections the controller stays in
LOCK_ON unchanged; with a detection and a beacon reading it acquires the
minimum-difference detection as target. -/
theorem lockOn_gap_behavior_c6_witness :
    ((activeStep c6State2 [] [5/2]).1 = { c6State2 with mode := TrackMode.LOCKON } ∧
      (activeStep c6State2 [] [5/2]).1.targetBbox = none ∧
      (activeStep c6State2 [] [5/2]).2 = false) ∧
    (∃ m, m ∈ [c6Box] ∧ (activeStep c6State2 [c6Box] [5/2]).1.targetBbox = some m ∧
      (activeStep c6State2 [c6Box] [5/2]).1.mode = TrackMode.TRACKING ∧
      ∀ d ∈ [c6Box], |estimatedDist c6State2.focalHeight m - List.headD [5/2] 999|
        ≤ |estimatedDist c6State2.focalHeight d - List.headD [5/2] 999|) :=
  ⟨(lockOn_gap_behavior_c6 c6State2 [] [5/2] rfl).1 (Or.inl rfl),
   (lockOn_gap_behavior_c6 c6State2 [c6Box] [5/2] rfl).2 (by simp) (by simp)⟩

/-- Claim C4: once the buffer has received window_size vectors the window
snapshot always contains exactly window_size entries in insertion order
(oldest evicted first), and an add signals readiness exactly once every
stride additions after the buffer first becomes full. -/
theorem sequenceBuffer_c4 (w nf s : ℕ) (hw : 1 ≤ w) (hs : 1 ≤ s)
    (hsw : s ≤ w) (xs : List α) (x : α) :
    (w ≤ xs.length →
      ((SequenceBuffer.new α w nf s).runAdds xs).get_window
          = xs.drop (xs.length - w) ∧
      ((SequenceBuffer.new α w nf s).runAdds xs).get_window.length = w) ∧
    ((((SequenceBuffer.new α w nf s).runAdds xs).add x).2 = true ↔
      (w ≤ xs.length + 1 ∧ (xs.length + 1 - w) % s = 0)) := by
  constructor
  · intro hfull
    rw [SequenceBuffer.runAdds_eq w nf s hw hs hsw xs]
    refine ⟨rfl, ?_⟩
    simp [SequenceBuffer.get_window, List.length_drop]
    omega
  · exact SequenceBuffer.add_ready_iff w nf s hw hs hsw xs x

/-- Witness for C4: window 3, stride 2; after adds 1..4 the window is the
last three entries in order, and the 5th add is ready (5 = 3 + 2). -/
theorem sequenceBuffer_c4_witness :
    ((SequenceBuffer.new ℕ 3 75 2).runAdds [1, 2, 3, 4]).get_window
        = [1, 2, 3, 4].drop ([1, 2, 3, 4].length - 3) ∧
    ((SequenceBuffer.new ℕ 3 75 2).runAdds [1, 2, 3, 4]).get_window.length = 3 ∧
    ((((SequenceBuffer.new ℕ 3 75 2).runAdds [1, 2, 3, 4]).add 5).2 = true) :=
  ⟨((sequenceBuffer_c4 3 75 2 (by decide) (by decide) (by decide) [1, 2, 3, 4] 5).1
      (by decide)).1,
   ((sequenceBuffer_c4 3 75 2 (by decide) (by decide) (by decide) [1, 2, 3, 4] 5).1
      (by decide)).2,
   (sequenceBuffer_c4 3 75 2 (by decide) (by decide) (by decide) [1, 2, 3, 4] 5).2.mpr
      (by decide)⟩

/-! ### Anomaly scorer adapter -/

/-- Claim C10: the anomaly flag is true exactly when the reconstruction
score strictly exceeds the threshold; a window scoring exactly at the
threshold is reported as not anomalous. -/
theorem predict_flag_strict_c10 (P : AnomalyPredictor) (w : List (List ℚ)) :
    ((P.predict w).is_anomaly = true ↔ (P.predict w).threshold < (P.predict w).score) ∧
    ((P.predict w).score = (P.predict w).threshold → (P.predict w).is_anomaly = false) := by
  constructor
  · simp [AnomalyPredictor.predict]
  · intro h
    simp only [AnomalyPredictor.predict] at h ⊢
    simp only [decide_eq_false_iff_not, not_lt]
    rw [h]

/-- Witness for C10: the identity model reconstructs perfectly, the score 0
equals the threshold 0, and the flag stays false. -/
theorem predict_flag_strict_c10_witness :
    (c10Predictor.predict [[0]]).score = (c10Predictor.predict [[0]]).threshold ∧
    (c10Predictor.predict [[0]]).is_anomaly = false :=
  ⟨by norm_num [c10Predictor, AnomalyPredictor.predict, AnomalyPredictor.normalize,
      meanSqErr, normEps],
   (predict_flag_strict_c10 c10Predictor [[0]]).2
     (by norm_num [c10Predictor, AnomalyPredictor.predict, AnomalyPredictor.normalize,
       meanSqErr, normEps])⟩

/-! ### Anomaly classifier -/

/-- The boolean and propositional views of qualification agree. -/
lemma qualifiesb_iff (w : AWindow) (L : ALabel) :
    qualifiesb w L = true ↔ qualifies w L := by
  simp [qualifiesb]

/-- Claim C1: whenever the safety-critical label qualifies, classification
returns it, regardless of every other label score. -/
theorem classify_fainting_first_c1 (w : AWindow)
    (h : qualifies w ALabel.FAINTING) :
    classify_anomaly w = ALabel.FAINTING := by
  have hmem : ALabel.FAINTING ∈ candidateLabels.filter (qualifiesb w) := by
    rw [List.mem_filter]
    exact ⟨by simp [candidateLabels], (qualifiesb_iff w _).mpr h⟩
  have hne : candidateLabels.filter (qualifiesb w) ≠ [] :=
    List.ne_nil_of_mem hmem
  simp only [classify_anomaly]
  rw [if_neg (by simpa [List.isEmpty_iff] using hne), if_pos hmem]

/-- The max-by-key scan returns its start or a scanned element, and its key
dominates the start and every scanned element. -/
lemma pickBest_go (w : AWindow) :
    ∀ (l : List ALabel) (a : ALabel),
      (l.foldl (fun acc M => if labelKey w acc < labelKey w M then M else acc) a = a ∨
        l.foldl (fun acc M => if labelKey w acc < labelKey w M then M else acc) a ∈ l) ∧
      labelKey w a ≤ labelKey w
        (l.foldl (fun acc M => if labelKey w acc < labelKey w M then M else acc) a) ∧
      ∀ M ∈ l, labelKey w M ≤ labelKey w
        (l.foldl (fun acc M => if labelKey w acc < labelKey w M then M else acc) a) := by
  intro l
  induction l with
  | nil => intro a; exact ⟨Or.inl rfl, le_refl _, by simp⟩
  | cons M t ih =>
    intro a
    simp only [List.foldl_cons]
    by_cases h : labelKey w a < labelKey w M
    · rw [if_pos h]
      obtain ⟨hsrc, hge, hall⟩ := ih M
      refine ⟨?_, le_trans (le_of_lt h) hge, ?_⟩
      · rcases hsrc with h2 | h2
        · exact Or.inr (by simp [h2])
        · exact Or.inr (by simp [h2])
      · intro M2 hM2
        rcases List.mem_cons.mp hM2 with h2 | h2
        · rw [h2]; exact hge
        · exact hall M2 h2
    · rw [if_neg h]
      obtain ⟨hsrc, hge, hall⟩ := ih a
      refine ⟨?_, hge, ?_⟩
      · rcases hsrc with h2 | h2
        · exact Or.inl h2
        · exact Or.inr (by simp [h2])
      · intro M2 hM2
        rcases List.mem_cons.mp hM2 with h2 | h2
        · rw [h2]; exact le_trans (not_lt.mp h) hge
        · exact hall M2 h2

/-- pickBest of a nonempty list is a member whose key dominates the list. -/
lemma pickBest_spec (w : AWindow) (l : List ALabel) (hne : l ≠ []) :
    pickBest w l ∈ l ∧ ∀ M ∈ l, labelKey w M ≤ labelKey w (pickBest w l) := by
  match l, hne with
  | L :: Ls, _ =>
    simp only [pickBest]
    obtain ⟨hsrc, hge, hall⟩ := pickBest_go w Ls L
    constructor
    · rcases hsrc with h2 | h2
      · rw [h2]; simp
      · simp [h2]
    · intro M hM
      rcases List.mem_cons.mp hM with h2 | h2
      · rw [h2]; exact hge
      · exact hall M h2

/-- UNKNOWN owns no checks and an unattainable minimum, so it never
qualifies. -/
lemma not_qualifies_unknown (w : AWindow) : ¬ qualifies w ALabel.UNKNOWN := by
  simp only [qualifies, labelScore, labelChecks, checkScore, countTrue, minScore]
  norm_num

/-- Every label other than UNKNOWN is a candidate. -/
lemma mem_candidates_of_ne (L : ALabel) (h : L ≠ ALabel.UNKNOWN) :
    L ∈ candidateLabels := by
  cases L <;> simp [candidateLabels] at h ⊢

/-- Claim C5: when the safety-critical label does not qualify, the
classifier returns a qualifying label whose (priority, score) key dominates
every qualifying label, and UNKNOWN is returned exactly when no candidate
label qualifies. -/
theorem classify_resolution_c5 (w : AWindow) :
    (¬ qualifies w ALabel.FAINTING →
      ∀ L, qualifies w L →
        qualifies w (classify_anomaly w) ∧
        labelKey w L ≤ labelKey w (classify_anomaly w)) ∧
    (classify_anomaly w = ALabel.UNKNOWN ↔ ∀ L ∈ candidateLabels, ¬ qualifies w L) := by
  by_cases hq : candidateLabels.filter (qualifiesb w) = []
  · have hclass : classify_anomaly w = ALabel.UNKNOWN := by
      simp only [classify_anomaly]
      rw [if_pos (by simp [hq])]
    have hnone : ∀ L ∈ candidateLabels, ¬ qualifies w L := by
      intro L hL hqual
      have : L ∈ candidateLabels.filter (qualifiesb w) :=
        List.mem_filter.mpr ⟨hL, (qualifiesb_iff w L).mpr hqual⟩
      rw [hq] at this
      simp at this
    constructor
    · intro _ L hL
      exact absurd hL (hnone L (mem_candidates_of_ne L
        (fun hU => (not_qualifies_unknown w) (hU ▸ hL))))
    · exact ⟨fun _ => hnone, fun _ => hclass⟩
  · have hmemq : ∀ L ∈ candidateLabels.filter (qualifiesb w), qualifies w L := by
      intro L hL
      exact (qualifiesb_iff w L).mp (List.of_mem_filter hL)
    have hsubc : ∀ L ∈ candidateLabels.filter (qualifiesb w), L ∈ candidateLabels := by
      intro L hL
      exact List.mem_of_mem_filter hL
    have hinq : ∀ L, qualifies w L → L ∈ candidateLabels.filter (qualifiesb w) := by
      intro L hL
      exact List.mem_filter.mpr ⟨mem_candidates_of_ne L
        (fun hU => (not_qualifies_unknown w) (hU ▸ hL)),
        (qualifiesb_iff w L).mpr hL⟩
    constructor
    · intro hnf L hL
      have hnfmem : ALabel.FAINTING ∉ candidateLabels.filter (qualifiesb w) := by
        intro hmem
        exact hnf (hmemq _ hmem)
      have hclass : classify_anomaly w = pickBest w
          (candidateLabels.filter (qualifiesb w)) := by
        simp only [classify_anomaly]
        rw [if_neg (by simpa [List.isEmpty_iff] using hq), if_neg hnfmem]
      obtain ⟨hmem, hdom⟩ := pickBest_spec w _ hq
      rw [hclass]
      exact ⟨hmemq _ hmem, hdom L (hinq L hL)⟩
    · constructor
      · intro hclass
        exfalso
        by_cases hf : ALabel.FAINTING ∈ candidateLabels.filter (qualifiesb w)
        · have : classify_anomaly w = ALabel.FAINTING := by
            simp only [classify_anomaly]
            rw [if_neg (by simpa [List.isEmpty_iff] using hq), if_pos hf]
          rw [hclass] at this
          exact absurd this (by simp)
        · have hclass2 : classify_anomaly w = pickBest w
              (candidateLabels.filter (qualifiesb w)) := by
            simp only [classify_anomaly]
            rw [if_neg (by simpa [List.isEmpty_iff] using hq), if_neg hf]
          obtain ⟨hmem, _⟩ := pickBest_spec w _ hq
          rw [hclass] at hclass2
          have hcand := hsubc _ hmem
          rw [← hclass2] at hcand
          revert hcand
          simp [candidateLabels]
      · intro hnone
        exfalso
        match hql : candidateLabels.filter (qualifiesb w), hq with
        | L :: _, _ =>
          have hL : L ∈ candidateLabels.filter (qualifiesb w) := by rw [hql]; simp
          exact hnone L (hsubc _ hL) (hmemq _ hL)

lemma colFirst_triple (a b c : ℝ) : colFirst [a, b, c] = a := rfl

lemma colLast_triple (a b c : ℝ) : colLast [a, b, c] = c := rfl

/-- Standard-deviation lower bound for a three-frame column via the
variance. -/
lemma npStd_triple_gt (a b c t : ℝ) (ht : 0 ≤ t)
    (h : t ^ 2 < npMean [(a - npMean [a, b, c]) ^ 2, (b - npMean [a, b, c]) ^ 2,
      (c - npMean [a, b, c]) ^ 2]) :
    t < npStd [a, b, c] := by
  simp only [npStd, List.map_cons, List.map_nil]
  exact (Real.lt_sqrt ht).mpr h

lemma c1w_col68 : wcol c1w 68 = [0, 0.1, 0.05] := by
  norm_num [wcol, c1w, c1r0, c1r1, c1r2]

lemma c1w_col69 : wcol c1w 69 = [0, 0.1, 0.06] := by
  norm_num [wcol, c1w, c1r0, c1r1, c1r2]

lemma c1w_col72 : wcol c1w 72 = [0, 0.2, 0] := by
  norm_num [wcol, c1w, c1r0, c1r1, c1r2]

lemma c1w_col73 : wcol c1w 73 = [0.5, 0.5, 0.2] := by
  norm_num [wcol, c1w, c1r0, c1r1, c1r2]

lemma c1w_col35 : wcol c1w 35 = [0, 0, 0] := by
  norm_num [wcol, c1w, c1r0, c1r1, c1r2]

lemma c1w_col74 : wcol c1w 74 = [0, 0, 0] := by
  norm_num [wcol, c1w, c1r0, c1r1, c1r2]

lemma c1w_faint_qualifies : qualifies c1w ALabel.FAINTING := by
  have hf1 : ¬ (colLast (wcol c1w 68) - colFirst (wcol c1w 68) > 0.06) := by
    rw [c1w_col68, colLast_triple, colFirst_triple]; norm_num
  have hf2 : ¬ (npMaxAbs (wcol c1w 35) > 0.02) := by
    rw [c1w_col35]
    norm_num [npMaxAbs]
  have hf3 : ¬ (colLast (wcol c1w 74) > colFirst (wcol c1w 74) * 1.3) := by
    rw [c1w_col74, colLast_triple, colFirst_triple]; norm_num
  have hf4 : colLast (wcol c1w 73) < colFirst (wcol c1w 73) - 0.2 := by
    rw [c1w_col73, colLast_triple, colFirst_triple]; norm_num
  have hf5 : colLast (wcol c1w 69) - colFirst (wcol c1w 69) > 0.05 := by
    rw [c1w_col69, colLast_triple, colFirst_triple]; norm_num
  have hcount : countTrue (faintChecks c1w) = 2 := by
    simp only [faintChecks, countTrue]
    rw [if_neg hf1, if_neg hf2, if_neg hf3, if_pos hf4, if_pos hf5]
  simp only [qualifies, minScore, labelScore, labelChecks, checkScore, hcount]
  rw [show (faintChecks c1w).length = 5 from rfl]
  norm_num

lemma c1w_sway_perfect : labelScore c1w ALabel.SWAYING = 1 := by
  have hs1 : npStd (wcol c1w 68) > 0.015 := by
    rw [c1w_col68]
    refine npStd_triple_gt 0 0.1 0.05 0.015 (by norm_num) ?_
    norm_num [npMean]
  have hs2 : npStd (wcol c1w 69) > 0.01 := by
    rw [c1w_col69]
    refine npStd_triple_gt 0 0.1 0.06 0.01 (by norm_num) ?_
    norm_num [npMean]
  have hs3 : |colLast (wcol c1w 68) - colFirst (wcol c1w 68)| < 0.08 := by
    rw [c1w_col68, colLast_triple, colFirst_triple]
    rw [show |(0.05:ℝ) - 0| = 0.05 by rw [abs_eq_self.mpr] <;> norm_num]
    norm_num
  have hs4 : npStd (wcol c1w 72) > 0.05 := by
    rw [c1w_col72]
    refine npStd_triple_gt 0 0.2 0 0.05 (by norm_num) ?_
    norm_num [npMean]
  have hcount : countTrue (swayChecks c1w) = 4 := by
    simp only [swayChecks, countTrue]
    rw [if_pos hs1, if_pos hs2, if_pos hs3, if_pos hs4]
  simp only [labelScore, labelChecks, checkScore, hcount]
  rw [show (swayChecks c1w).length = 4 from rfl]
  norm_num

/-- Witness for C1: on the adversarial window FAINTING qualifies at score
0.4 while SWAYING scores a perfect 1.0, and FAINTING still wins. -/
theorem classify_fainting_first_c1_witness :
    qualifies c1w ALabel.FAINTING ∧ labelScore c1w ALabel.SWAYING = 1 ∧
    classify_anomaly c1w = ALabel.FAINTING :=
  ⟨c1w_faint_qualifies, c1w_sway_perfect,
    classify_fainting_first_c1 c1w c1w_faint_qualifies⟩

lemma c5w_col (j : ℕ) (hj : j ≠ 68) : wcol c5w j = [0, 0, 0] := by
  simp [wcol, c5w, c5r0, c5r1, hj]

lemma c5w_col68 : wcol c5w 68 = [0, 0.1, 0] := by
  norm_num [wcol, c5w, c5r0, c5r1]

lemma c5w_faint_not : ¬ qualifies c5w ALabel.FAINTING := by
  have hf1 : ¬ (colLast (wcol c5w 68) - colFirst (wcol c5w 68) > 0.06) := by
    rw [c5w_col68, colLast_triple, colFirst_triple]; norm_num
  have hf2 : ¬ (npMaxAbs (wcol c5w 35) > 0.02) := by
    rw [c5w_col 35 (by norm_num)]
    norm_num [npMaxAbs]
  have hf3 : ¬ (colLast (wcol c5w 74) > colFirst (wcol c5w 74) * 1.3) := by
    rw [c5w_col 74 (by norm_num), colLast_triple, colFirst_triple]; norm_num
  have hf4 : ¬ (colLast (wcol c5w 73) < colFirst (wcol c5w 73) - 0.2) := by
    rw [c5w_col 73 (by norm_num), colLast_triple, colFirst_triple]; norm_num
  have hf5 : ¬ (colLast (wcol c5w 69) - colFirst (wcol c5w 69) > 0.05) := by
    rw [c5w_col 69 (by norm_num), colLast_triple, colFirst_triple]; norm_num
  have hcount : countTrue (faintChecks c5w) = 0 := by
    simp only [faintChecks, countTrue]
    rw [if_neg hf1, if_neg hf2, if_neg hf3, if_neg hf4, if_neg hf5]
  simp only [qualifies, minScore, labelScore, labelChecks, checkScore, hcount]
  rw [show (faintChecks c5w).length = 5 from rfl]
  norm_num

lemma c5w_sway_qualifies : qualifies c5w ALabel.SWAYING := by
  have hs1 : npStd (wcol c5w 68) > 0.015 := by
    rw [c5w_col68]
    refine npStd_triple_gt 0 0.1 0 0.015 (by norm_num) ?_
    norm_num [npMean]
  have hs2 : ¬ (npStd (wcol c5w 69) > 0.01) := by
    rw [c5w_col 69 (by norm_num)]
    have hmz : npMean [(0:ℝ), 0, 0] = 0 := by norm_num [npMean]
    simp only [npStd, List.map_cons, List.map_nil, hmz]
    norm_num [Real.sqrt_zero, hmz]
  have hs3 : |colLast (wcol c5w 68) - colFirst (wcol c5w 68)| < 0.08 := by
    rw [c5w_col68, colLast_triple, colFirst_triple]
    norm_num
  have hs4 : ¬ (npStd (wcol c5w 72) > 0.05) := by
    rw [c5w_col 72 (by norm_num)]
    have hmz : npMean [(0:ℝ), 0, 0] = 0 := by norm_num [npMean]
    simp only [npStd, List.map_cons, List.map_nil, hmz]
    norm_num [Real.sqrt_zero, hmz]
  have hcount : countTrue (swayChecks c5w) = 2 := by
    simp only [swayChecks, countTrue]
    rw [if_pos hs1, if_neg hs2, if_pos hs3, if_neg hs4]
  simp only [qualifies, minScore, labelScore, labelChecks, checkScore, hcount]
  rw [show (swayChecks c5w).length = 4 from rfl]
  norm_num

/-- Witness for C5: FAINTING does not qualify and SWAYING does, so the
classifier returns a qualifying label dominating SWAYING in (priority,
score). -/
theorem classify_resolution_c5_witness :
    ¬ qualifies c5w ALabel.FAINTING ∧ qualifies c5w ALabel.SWAYING ∧
    (qualifies c5w (classify_anomaly c5w) ∧
      labelKey c5w ALabel.SWAYING ≤ labelKey c5w (classify_anomaly c5w)) :=
  ⟨c5w_faint_not, c5w_sway_qualifies,
    (classify_resolution_c5 c5w).1 c5w_faint_not ALabel.SWAYING c5w_sway_qualifies⟩

/-! ### Feature engineer -/

/-- Claim C9: in every state (any previous-frame cache, so before or after
any reset) the feature vector has exactly 34 + 34 + 7 = 75 entries. -/
theorem compute_length_c9 (e : FeatureEngineer) (kps : Fin 17 → ℝ × ℝ × ℝ)
    (fw fh : ℝ) :
    (e.compute kps fw fh).1.length = 75 := by
  obtain ⟨prev⟩ := e
  cases prev <;>
    simp [FeatureEngineer.compute]

/-- The delta block of a computation against an identical previous frame is
all zeros. -/
lemma ofFn_sub_self (xy : Fin 17 → ℝ × ℝ) :
    List.ofFn (fun j => flat34 xy j - flat34 xy j) = List.replicate 34 (0 : ℝ) := by
  rw [show (fun j : Fin 34 => flat34 xy j - flat34 xy j) = fun _ => (0 : ℝ)
    from funext fun j => sub_self _]
  exact List.ofFn_const 34 0

/-- The middle 34 entries of raw ++ delta ++ engineered are the delta block. -/
lemma slice_middle (raw delta eng : List ℝ) (hraw : raw.length = 34)
    (hdelta : delta.length = 34) :
    ((raw ++ delta ++ eng).drop 34).take 34 = delta := by
  rw [List.append_assoc, ← hraw, List.drop_left, hraw, ← hdelta, List.take_left]

/-- Claim C8: after a reset, computing twice on the same input yields
identical feature vectors, and the 34 delta components are zero in both
results. -/
theorem compute_reset_idempotent_c8 (e : FeatureEngineer)
    (kps : Fin 17 → ℝ × ℝ × ℝ) (fw fh : ℝ) :
    ((e.reset.compute kps fw fh).1
        = ((e.reset.compute kps fw fh).2.compute kps fw fh).1) ∧
    (((e.reset.compute kps fw fh).1.drop 34).take 34 = List.replicate 34 (0 : ℝ)) ∧
    ((((e.reset.compute kps fw fh).2.compute kps fw fh).1.drop 34).take 34
        = List.replicate 34 (0 : ℝ)) := by
  refine ⟨?_, ?_, ?_⟩
  · simp only [FeatureEngineer.reset, FeatureEngineer.compute, ofFn_sub_self]
  · simp only [FeatureEngineer.reset, FeatureEngineer.compute, ofFn_sub_self]
    exact slice_middle _ _ _ (by simp) (by simp)
  · simp only [FeatureEngineer.reset, FeatureEngineer.compute, ofFn_sub_self]
    exact slice_middle _ _ _ (by simp) (by simp)

/-- Counterexample to claim C7 as worded: the code adds the epsilon once to
the product of the norms, not to each norm, and at coincident unit vectors
the two formulas give different angles. -/
theorem joint_angle_eps_counterexample_c7 :
    _joint_angle (1, 0) (0, 0) (1, 0) ≠ jointAngleSpecWorded (1, 0) (0, 0) (1, 0) := by
  have hn : vnorm (1 - 0, 0 - 0) = 1 := by
    norm_num [vnorm, Real.sqrt_one]
  have heps : (0 : ℝ) < feEps := by norm_num [feEps]
  have hL : _joint_angle (1, 0) (0, 0) (1, 0)
      = Real.arccos (max (-1) (min 1 (1 / (1 + feEps)))) := by
    simp only [_joint_angle, vdot, hn]
    norm_num
  have hR : jointAngleSpecWorded (1, 0) (0, 0) (1, 0)
      = Real.arccos (max (-1) (min 1 (1 / ((1 + feEps) * (1 + feEps))))) := by
    simp only [jointAngleSpecWorded, vdot, hn]
    norm_num
  have hx : (0 : ℝ) < 1 / (1 + feEps) ∧ 1 / (1 + feEps) ≤ 1 := by
    constructor
    · positivity
    · rw [div_le_one (by positivity)]
      linarith
  have hy : (0 : ℝ) < 1 / ((1 + feEps) * (1 + feEps)) ∧
      1 / ((1 + feEps) * (1 + feEps)) ≤ 1 := by
    constructor
    · positivity
    · rw [div_le_one (by positivity)]
      nlinarith
  have hclampx : max (-1) (min 1 (1 / (1 + feEps))) = 1 / (1 + feEps) := by
    rw [min_eq_right hx.2, max_eq_right (by linarith [hx.1])]
  have hclampy : max (-1) (min 1 (1 / ((1 + feEps) * (1 + feEps))))
      = 1 / ((1 + feEps) * (1 + feEps)) := by
    rw [min_eq_right hy.2, max_eq_right (by linarith [hy.1])]
  rw [hL, hR, hclampx, hclampy]
  intro heq
  have hcos := congrArg Real.cos heq
  rw [Real.cos_arccos (by linarith [hx.1]) hx.2,
    Real.cos_arccos (by linarith [hy.1]) hy.2] at hcos
  rw [div_eq_div_iff (by positivity) (by positivity)] at hcos
  nlinarith [heps]

/-- Amended C7: the joint angle is arccos of the clamped normalised dot
product with the epsilon added once to the product of the norms; the divisor
is strictly positive for every input (so the computation is total, zero
vectors included), and fully coincident joints give arccos 0 = pi / 2. -/
theorem joint_angle_formula_c7 (a vertex c : ℝ × ℝ) :
    _joint_angle a vertex c =
      Real.arccos (max (-1) (min 1
        (vdot (a.1 - vertex.1, a.2 - vertex.2) (c.1 - vertex.1, c.2 - vertex.2) /
          (vnorm (a.1 - vertex.1, a.2 - vertex.2) *
            vnorm (c.1 - vertex.1, c.2 - vertex.2) + feEps)))) ∧
    0 < vnorm (a.1 - vertex.1, a.2 - vertex.2) *
      vnorm (c.1 - vertex.1, c.2 - vertex.2) + feEps ∧
    _joint_angle vertex vertex vertex = Real.pi / 2 := by
  refine ⟨rfl, ?_, ?_⟩
  · have h1 := Real.sqrt_nonneg ((a.1 - vertex.1) ^ 2 + (a.2 - vertex.2) ^ 2)
    have h2 := Real.sqrt_nonneg ((c.1 - vertex.1) ^ 2 + (c.2 - vertex.2) ^ 2)
    have heps : (0 : ℝ) < feEps := by norm_num [feEps]
    simp only [vnorm]
    nlinarith
  · have hz : _joint_angle vertex vertex vertex
        = Real.arccos (max (-1) (min 1 0)) := by
      simp [_joint_angle, vdot, sub_self]
    rw [hz]
    rw [show max (-1 : ℝ) (min 1 0) = 0 by norm_num]
    exact Real.arccos_zero
